import Mathlib

/-!
Verification of the content-based book recommender.

Shallow embedding of `src/recommender.py` (class `ContentBasedRecommender`)
and proofs of the specification claims about it.

Modelling conventions:
* A pandas row is a `RawBook` of loosely-typed `RawField`s; `astype(str)`
  (in `__init__`) is `RawField.toStr`, with pandas missing values printing
  as the string "nan".
* `preprocess` builds the composite feature text: space-joined
  title/author/publisher, lowercased.
* `TfidfVectorizer(stop_words='english')` is modelled at the level the
  claims need: its tokenizer (`token_pattern r"\w\w+"`, lowercasing) and
  the fitted vocabulary, with the library's documented "empty vocabulary"
  `ValueError` as an `Except.error`; the stop-word list is a parameter
  (the code selects sklearn's fixed English list).  The numeric TF-IDF
  weights are modelled as an arbitrary nonnegative matrix `w` over `ℝ`
  (TF-IDF weights are products of nonnegative term frequencies and
  positive smoothed idf factors), row-L2-normalized by the vectorizer.
* `linear_kernel(tfidf_matrix, tfidf_matrix)` is `cosineSim`: the dot
  product of the L2-normalized rows (floats are modelled as reals).
* `recommend` works on the similarity matrix only through the linear
  order on its entries, so it is embedded generically over any
  `LinearOrder` of scores; instantiating the scores at the `ℝ`-valued
  `cosineSim` matrix gives the built engine.  Python's `sorted(...,
  key=lambda x: x[1], reverse=True)` is a stable sort by descending
  score; it is embedded as `List.insertionSort`, which is also stable.
* `DataFrame.sample` in `get_books_by_genre` is an abstract `sampler`
  parameter (the only random operation in the engine).
-/

/-- A raw metadata field of the input table: a string, a missing value
(pandas `NaN`), or a number.  Loosely typed on purpose. -/
inductive RawField where
  | str (s : String)
  | missing
  | num (n : Int)
deriving DecidableEq, Repr

/-- Model of `astype(str)` on one field: missing values print as `"nan"`,
numbers as their decimal form, strings are unchanged. -/
def RawField.toStr : RawField → String
  | .str s => s
  | .missing => "nan"
  | .num n => toString n

/-- One raw input row (the three columns the engine reads). -/
structure RawBook where
  title : RawField
  author : RawField
  publisher : RawField
deriving DecidableEq, Repr

/-- A row after the `astype(str)` coercions in `__init__`. -/
structure Book where
  title : String
  author : String
  publisher : String
deriving DecidableEq, Repr, Inhabited

/-- The `__init__` coercion of one row. -/
def coerceBook (r : RawBook) : Book :=
  ⟨r.title.toStr, r.author.toStr, r.publisher.toStr⟩

/-- The `__init__` coercion of the whole table. -/
def coerceCorpus (rs : List RawBook) : List Book := rs.map coerceBook

/-- Python's `str.lower()` over the corpus (character-wise ASCII
lowercasing). -/
def lowerStr (s : String) : String := String.mk (s.toList.map Char.toLower)

/-- Composite feature text of one row, from `preprocess`: `(title + " " + author + " " + publisher).lower()`. -/
def featuresOf (b : Book) : String :=
  lowerStr (b.title ++ " " ++ b.author ++ " " ++ b.publisher)

/-- The composite feature text column built by `preprocess`. -/
def preprocessFeatures (books : List Book) : List String := books.map featuresOf

/-- sklearn's default word characters (`\w` over our ASCII corpus). -/
def isWordChar (c : Char) : Bool := c.isAlphanum || c == '_'

/-- Splits a character stream into maximal word-character runs and keeps
those of length ≥ 2 (`token_pattern r"(?u)\b\w\w+\b"`).  `cur` is the
current run, reversed. -/
def tokensAux : List Char → List Char → List (List Char)
  | [], cur => if 2 ≤ cur.length then [cur.reverse] else []
  | c :: cs, cur =>
    if isWordChar c then tokensAux cs (c :: cur)
    else (if 2 ≤ cur.length then [cur.reverse] else []) ++ tokensAux cs []

/-- The `TfidfVectorizer` analyzer: lowercase, then extract tokens of at
least two word characters. -/
def tokenize (s : String) : List String :=
  (tokensAux (lowerStr s).toList []).map (fun cs => String.mk cs)

/-- The fitted vocabulary: all tokens of the corpus minus the stop
words, without duplicates. -/
def buildVocab (stop : List String) (texts : List String) : List String :=
  (((texts.map tokenize).flatten).filter (fun t => !(stop.contains t))).dedup

/-- The fitted state of the vectorizer that the claims depend on. -/
structure TrainedModel where
  vocab : List String
deriving DecidableEq, Repr

/-- Model of `tfidf.fit_transform`: raises `ValueError("empty vocabulary ...")`
when no token of any document survives tokenization and stop-word
removal; succeeds otherwise. -/
def fitVectorizer (stop : List String) (texts : List String) :
    Except String TrainedModel :=
  let v := buildVocab stop texts
  if v.isEmpty then .error "empty vocabulary" else .ok ⟨v⟩

/-- End-to-end construction: `__init__` coercions, `preprocess`, then the
`fit_transform` call inside `train`. -/
def buildEngine (stop : List String) (raw : List RawBook) :
    Except String (List Book × TrainedModel) :=
  (fitVectorizer stop (preprocessFeatures (coerceCorpus raw))).map
    (fun m => (coerceCorpus raw, m))

/-- Sum of squares of one TF-IDF row. -/
noncomputable def rowNormSq {V : Nat} (v : Fin V → ℝ) : ℝ := ∑ t, v t ^ 2

/-- The vectorizer's `norm='l2'` row normalization.  A zero row has
`Real.sqrt 0 = 0` and division by zero is zero in Lean, so it stays
zero, exactly as sklearn leaves zero rows untouched. -/
noncomputable def l2normalize {V : Nat} (v : Fin V → ℝ) : Fin V → ℝ :=
  fun t => v t / Real.sqrt (rowNormSq v)

/-- Model of `linear_kernel(tfidf_matrix, tfidf_matrix)`: dot products of the
L2-normalized rows, i.e. the `cosine_sim` matrix stored by `train`. -/
noncomputable def cosineSim {N V : Nat} (w : Fin N → Fin V → ℝ) (i j : Fin N) : ℝ :=
  ∑ t, l2normalize (w i) t * l2normalize (w j) t

/-- Model of `Series.drop_duplicates()`: keeps the first occurrence of each
*value*; `seen` accumulates the values already kept. -/
def dropDupValsAux {K V : Type} [DecidableEq V] :
    List (K × V) → List V → List (K × V)
  | [], _ => []
  | p :: ps, seen =>
    if p.2 ∈ seen then dropDupValsAux ps seen
    else p :: dropDupValsAux ps (p.2 :: seen)

/-- The reverse map built by `train`: `pd.Series(books_df.index,
index=books_df['Book-Title']).drop_duplicates()`, as the list of
(title, position) pairs in corpus order. -/
def indicesSeries (books : List Book) : List (String × Nat) :=
  dropDupValsAux ((books.map Book.title).enum.map (fun p => (p.2, p.1))) []

/-- Model of `title not in self.indices` and `idx = self.indices[title]` followed by
the `isinstance(idx, pd.Series)` fallback to `.iloc[0]`: the first entry
of the series whose key is the title, if any. -/
def lookupSeries (t : String) (s : List (String × Nat)) : Option Nat :=
  match s.filter (fun p => p.1 == t) with
  | [] => none
  | p :: _ => some p.2

/-- Title resolution as performed at the top of `recommend`. -/
def resolveTitle (books : List Book) (t : String) : Option Nat :=
  lookupSeries t (indicesSeries books)

/-- The comparison of `sorted(sim_scores, key=lambda x: x[1],
reverse=True)`: `a` may precede `b` iff `a`'s score is ≥ `b`'s. -/
def scoreGE {α : Type} [LinearOrder α] (a b : Nat × α) : Prop :=
  b.2 ≤ a.2

instance {α : Type} [LinearOrder α] : DecidableRel (scoreGE (α := α)) :=
  fun _ _ => inferInstanceAs (Decidable (_ ≤ _))

/-- Model of `sorted(list(enumerate(row)), key=lambda x: x[1], reverse=True)`:
Python's `sorted` is a stable sort, and `List.insertionSort` with a
total preorder is stable (`List.pair_sublist_insertionSort`), so the two
agree on every input. -/
def rankedPairs {α : Type} [LinearOrder α] (row : List α) : List (Nat × α) :=
  row.enum.insertionSort scoreGE

/-- Model of `ContentBasedRecommender.recommend`, generic over the ordered score
type (the built engine instantiates the scores at the real-valued
`cosineSim` matrix).  Returns the rows `books_df.iloc[book_indices]`. -/
def recommend {α : Type} [LinearOrder α] (books : List Book)
    (sim : Nat → Nat → α) (title : String) (top_n : Nat) : List Book :=
  match resolveTitle books title with
  | none => []
  | some idx =>
    let row := (List.range books.length).map (sim idx)
    let picked := ((rankedPairs row).drop 1).take top_n
    (picked.map (fun p => p.1)).map (fun i => books.getD i default)

/-- The fixed keyword dictionary of `get_books_by_genre`. -/
def genreKeywords : String → Option (List String)
  | "Fantasy" => some ["magic", "wizard", "dragon", "fantasy", "ring",
      "harry potter", "lord of the rings", "hobbit", "witch"]
  | "Mystery" => some ["mystery", "detective", "murder", "crime",
      "sherlock", "poirot", "investigation", "thriller"]
  | "Romance" => some ["love", "romance", "kiss", "wedding", "bride", "heart"]
  | "Sci-Fi" => some ["space", "planet", "alien", "galaxy", "star wars",
      "scifi", "sci-fi", "robot", "future"]
  | "Horror" => some ["horror", "ghost", "vampire", "zombie", "scary",
      "haunted", "stephen king"]
  | _ => none

/-- Model of `str.contains(pattern, case=False)` for one keyword: the keyword
pattern has no regex metacharacters, so it matches iff it is a
case-insensitive substring. -/
def containsCI (haystack pat : String) : Bool :=
  decide ((lowerStr pat).toList <:+: (lowerStr haystack).toList)

/-- The row filter of `get_books_by_genre`: the title contains at least
one of the genre's keywords (the regex alternation `'|'.join(...)`). -/
def titleMatches (kws : List String) (b : Book) : Bool :=
  kws.any (fun k => containsCI b.title k)

/-- Model of `ContentBasedRecommender.get_books_by_genre`.  `sampler` stands for
`DataFrame.sample`, the only randomized operation of the engine. -/
def get_books_by_genre (sampler : List Book → Nat → List Book)
    (books : List Book) (genre : String) (top_n : Nat) : List Book :=
  match genreKeywords genre with
  | none => []
  | some kws =>
    let filtered := books.filter (titleMatches kws)
    if top_n < filtered.length then sampler filtered top_n else filtered

/-- State-threading denotation of one `recommend` call: the body of
`recommend` performs no random-source calls, so the ambient random state
`rng` passes through untouched. -/
def recommendCall {α : Type} [LinearOrder α] (books : List Book)
    (sim : Nat → Nat → α) (title : String) (top_n : Nat) (rng : Nat) :
    List Book × Nat :=
  (recommend books sim title top_n, rng)

/-- The specification's ranking order on (index, score) pairs: strictly
higher similarity first, ties broken by ascending corpus index. -/
def specOrd {α : Type} [LinearOrder α] (p q : Nat × α) : Prop :=
  q.2 < p.2 ∨ (p.2 = q.2 ∧ p.1 < q.1)

instance {α : Type} [LinearOrder α] : DecidableRel (specOrd (α := α)) :=
  fun _ _ => inferInstanceAs (Decidable (_ ∨ _))

instance {α : Type} [LinearOrder α] : IsTotal (Nat × α) (scoreGE (α := α)) :=
  ⟨fun a b => le_total b.2 a.2⟩

instance {α : Type} [LinearOrder α] : IsTrans (Nat × α) (scoreGE (α := α)) :=
  ⟨fun _ _ _ hab hbc => le_trans hbc hab⟩

/-- A three-book corpus in which books 0 and 1 have feature texts
`"alpha beta ann px"` and `"beta alpha ann px"`: distinct titles, but the
same token multiset, hence byte-identical TF-IDF rows and pairwise
cosine similarity 1.0. -/
def booksDupVec : List Book :=
  [⟨"alpha beta","ann","px"⟩, ⟨"beta alpha","ann","px"⟩, ⟨"gamma delta","bob","py"⟩]

/-- The similarity matrix `train` produces on `booksDupVec`: rows 0 and 1
are identical unit vectors (mutual similarity 1, self-similarity 1) and
book 2 shares no token with them (similarity 0). -/
def simDupVec : Nat → Nat → ℚ := fun i j =>
  if i == 2 || j == 2 then (if i == j then 1 else 0) else 1

/-- A two-book corpus and an identity-like similarity matrix for the C2
witness. -/
def booksW2 : List Book := [⟨"t","a","p"⟩, ⟨"u","b","q"⟩]

/-- Similarity used by the C2 witness: 1 on the diagonal, 0 elsewhere. -/
def simW2 : Nat → Nat → ℕ := fun i j => if i == j then 1 else 0

/-- The weight matrix of the C7 witness: one document, one term, weight 1. -/
def wWit : Fin 1 → Fin 1 → ℝ := fun _ _ => 1

/-! Title resolution -/

lemma dropDupValsAux_eq_self {K V : Type} [DecidableEq V] :
    ∀ (l : List (K × V)) (seen : List V),
      l.Pairwise (fun p q => p.2 ≠ q.2) → (∀ p ∈ l, p.2 ∉ seen) →
      dropDupValsAux l seen = l := by
  intro l
  induction l with
  | nil => intro seen _ _; rfl
  | cons p ps ih =>
    intro seen hpw hseen
    rw [List.pairwise_cons] at hpw
    simp only [dropDupValsAux]
    rw [if_neg (hseen p (List.mem_cons_self _ _))]
    congr 1
    refine ih _ hpw.2 ?_
    intro q hq
    simp only [List.mem_cons, not_or]
    exact ⟨fun h => hpw.1 q hq h.symm, hseen q (List.mem_cons_of_mem _ hq)⟩

lemma enum_pairwise_fst_lt {α : Type} (l : List α) :
    l.enum.Pairwise (fun p q => p.1 < q.1) := by
  rw [List.pairwise_iff_getElem]
  intro i j hi hj hij
  simp only [List.enum_length] at hi hj
  simp [List.getElem_enum, hij]

lemma indicesSeries_eq (books : List Book) :
    indicesSeries books =
      (books.map Book.title).enum.map (fun p => (p.2, p.1)) := by
  refine dropDupValsAux_eq_self _ _ ?_ (by simp)
  refine (enum_pairwise_fst_lt _).map _ ?_
  intro a b h
  simp only [ne_eq]
  omega

lemma lookupSeries_enumFrom (t : String) :
    ∀ (ts : List String) (n : Nat),
      lookupSeries t ((List.enumFrom n ts).map (fun p => (p.2, p.1))) =
        (ts.findIdx? (fun s => s == t)).map (· + n)
  | [], n => rfl
  | s :: ss, n => by
    simp only [List.enumFrom_cons, List.map_cons, lookupSeries, List.findIdx?_cons]
    by_cases h : s == t
    · rw [List.filter_cons_of_pos (by simpa using h), if_pos h]
      simp
    · rw [List.filter_cons_of_neg (by simpa using h), if_neg h]
      have := lookupSeries_enumFrom t ss (n + 1)
      simp only [lookupSeries] at this
      rw [this, List.findIdx?_start_succ, Option.map_map]
      congr 1
      funext x
      simp only [Function.comp_apply]
      omega

lemma resolveTitle_eq_findIdx (books : List Book) (t : String) :
    resolveTitle books t = books.findIdx? (fun b => b.title == t) := by
  rw [resolveTitle, indicesSeries_eq, List.enum_eq_enumFrom, lookupSeries_enumFrom,
    List.findIdx?_map]
  have hid : Option.map (fun x : Nat => x + 0)
      (books.findIdx? ((fun s => s == t) ∘ Book.title)) =
      books.findIdx? ((fun s => s == t) ∘ Book.title) := by
    cases books.findIdx? ((fun s => s == t) ∘ Book.title) <;> rfl
  rw [hid]
  rfl

/-- C3: a title shared by several corpus items always resolves to the
first-occurring corpus position: if position `i` holds the title and no
earlier position does, the lookup in `recommend` returns `i`, and never
returns any other position (later duplicates are unreachable by title).
`resolveTitle` is a pure function of the built engine, so repeated calls
agree by construction. -/
theorem duplicate_titles_resolve_first (books : List Book) (t : String) (i : Nat)
    (hi : i < books.length) (ht : (books.getD i default).title = t)
    (hfirst : ∀ j, j < i → (books.getD j default).title ≠ t) :
    resolveTitle books t = some i ∧
      ∀ j, j ≠ i → resolveTitle books t ≠ some j := by
  have h1 : resolveTitle books t = some i := by
    rw [resolveTitle_eq_findIdx, List.findIdx?_eq_some_iff_getElem]
    refine ⟨hi, ?_, ?_⟩
    · rw [← List.getD_eq_getElem books default hi]
      simpa using ht
    · intro j hj
      have hjlen : j < books.length := Nat.lt_trans hj hi
      rw [← List.getD_eq_getElem books default hjlen]
      simpa using hfirst j hj
  refine ⟨h1, fun j hj hc => hj ?_⟩
  rw [h1] at hc
  exact (Option.some.inj hc).symm

/-- Witness for C3, on the spec's duplicate-title shape: two items titled
`"T"` at positions 1 and 2; lookup resolves to position 1. -/
theorem duplicate_titles_resolve_first_witness :
    resolveTitle [⟨"X","a","p"⟩, ⟨"T","a","p"⟩, ⟨"T","b","q"⟩] "T" = some 1 ∧
      ∀ j, j ≠ 1 →
        resolveTitle [⟨"X","a","p"⟩, ⟨"T","a","p"⟩, ⟨"T","b","q"⟩] "T" ≠ some j :=
  duplicate_titles_resolve_first _ "T" 1 (by decide) (by decide)
    (by intro j hj; have hj0 : j = 0 := Nat.lt_one_iff.mp hj; subst hj0; decide)

/-! Not-found queries -/

/-- C4: a title absent from the title index and a category outside
the fixed five-genre set both produce an empty result; both query
functions are total Lean functions, so neither can raise. -/
theorem unknown_queries_return_empty {α : Type} [LinearOrder α]
    (books : List Book) (sim : Nat → Nat → α)
    (sampler : List Book → Nat → List Book)
    (title genre : String) (n m : Nat)
    (htitle : ∀ b ∈ books, b.title ≠ title)
    (hgenre : genre ∉ ["Fantasy", "Mystery", "Romance", "Sci-Fi", "Horror"]) :
    recommend books sim title n = [] ∧
      get_books_by_genre sampler books genre m = [] := by
  constructor
  · have hres : resolveTitle books title = none := by
      rw [resolveTitle_eq_findIdx, List.findIdx?_eq_none_iff]
      intro b hb
      simpa using htitle b hb
    simp only [recommend, hres]
  · have hkw : genreKeywords genre = none := by
      unfold genreKeywords
      split <;> simp_all
    simp only [get_books_by_genre, hkw]

/-- Witness for C4: a one-book corpus queried with an unknown title and
an unknown category. -/
theorem unknown_queries_return_empty_witness :
    recommend [(⟨"A","B","C"⟩ : Book)] (fun _ _ => (0 : ℕ)) "zzz" 5 = [] ∧
      get_books_by_genre (fun l k => l.take k) [(⟨"A","B","C"⟩ : Book)]
        "Western" 10 = [] :=
  unknown_queries_return_empty _ _ _ "zzz" "Western" 5 10 (by decide) (by decide)

/-! The self-exclusion defect of `recommend` (C1) -/

/-- C1, failing evaluation: `recommend` drops only rank 0 of the
stable descending sort (`sim_scores[1:top_n+1]`), so with the query
`"beta alpha"` resolved to index 1 but index 0 tied at similarity 1.0
and placed first by the stable order, the returned rows contain the
resolved query item itself — the code excludes by rank position, not by
corpus index. -/
theorem recommend_returns_query_item_on_duplicate_vectors :
    resolveTitle booksDupVec "beta alpha" = some 1 ∧
      recommend booksDupVec simDupVec "beta alpha" 5 =
        [⟨"beta alpha","ann","px"⟩, ⟨"gamma delta","bob","py"⟩] ∧
      booksDupVec.getD 1 default ∈ recommend booksDupVec simDupVec "beta alpha" 5 := by
  have h : recommend booksDupVec simDupVec "beta alpha" 5 =
      [⟨"beta alpha","ann","px"⟩, ⟨"gamma delta","bob","py"⟩] := rfl
  exact ⟨by decide, h, h ▸ List.mem_cons_self _ _⟩

/-! Determinism of `recommend` (C9) -/

/-- C9: `recommend` is deterministic.  In the state-threading
denotation `recommendCall`, the result does not depend on the ambient
random state, the state is returned unchanged, and a second call with
identical arguments (sequenced after the first) returns the same ordered
list.  The only randomized operation of the engine, `DataFrame.sample`,
is not on this path. -/
theorem recommend_deterministic {α : Type} [LinearOrder α] (books : List Book)
    (sim : Nat → Nat → α) (title : String) (n : Nat) (r₁ r₂ : Nat) :
    (recommendCall books sim title n r₁).1 = (recommendCall books sim title n r₂).1 ∧
    (recommendCall books sim title n r₁).2 = r₁ ∧
    (recommendCall books sim title n
        (recommendCall books sim title n r₁).2).1 =
      (recommendCall books sim title n r₁).1 :=
  ⟨rfl, rfl, rfl⟩

/-! Genre browsing (C5, C10) -/

/-- C5: for a known category, every returned item's title contains at
least one of the category's keywords as a case-insensitive substring
(disjunction over the keyword list).  `sampler` may be any function that
returns rows of the frame it is given, which is all `DataFrame.sample`
can return. -/
theorem genre_results_match_keywords
    (sampler : List Book → Nat → List Book)
    (hs : ∀ l n, ∀ b ∈ sampler l n, b ∈ l)
    (books : List Book) (genre : String) (kws : List String) (top_n : Nat)
    (hk : genreKeywords genre = some kws) :
    ∀ b ∈ get_books_by_genre sampler books genre top_n,
      ∃ k ∈ kws, containsCI b.title k = true := by
  intro b hb
  simp only [get_books_by_genre, hk] at hb
  have hmem : b ∈ books.filter (titleMatches kws) := by
    by_cases hlen : top_n < (books.filter (titleMatches kws)).length
    · rw [if_pos hlen] at hb
      exact hs _ _ b hb
    · rw [if_neg hlen] at hb
      exact hb
  have hmatch := List.of_mem_filter hmem
  simpa [titleMatches, List.any_eq_true] using hmatch

/-- Witness for C5: a Fantasy query over a one-book corpus whose title
contains the keyword "magic". -/
theorem genre_results_match_keywords_witness :
    ∃ k ∈ ["magic", "wizard", "dragon", "fantasy", "ring", "harry potter",
        "lord of the rings", "hobbit", "witch"],
      containsCI "The Magic Mountain" k = true :=
  genre_results_match_keywords (fun l k => l.take k)
    (fun _ _ _ h => List.take_subset _ _ h)
    [⟨"The Magic Mountain","a","p"⟩] "Fantasy" _ 5 rfl
    ⟨"The Magic Mountain","a","p"⟩ (by decide)

/-- C10: when at most `top_n` titles match the category's keywords,
`get_books_by_genre` returns exactly the matching rows, in corpus order,
for every sampler — the sampling branch is not taken. -/
theorem genre_small_result_in_corpus_order
    (sampler : List Book → Nat → List Book) (books : List Book)
    (genre : String) (kws : List String) (top_n : Nat)
    (hk : genreKeywords genre = some kws)
    (hlen : (books.filter (titleMatches kws)).length ≤ top_n) :
    get_books_by_genre sampler books genre top_n =
      books.filter (titleMatches kws) := by
  simp only [get_books_by_genre, hk]
  rw [if_neg (by omega)]

/-- Witness for C10: two books, one Horror match, `top_n = 10`; the
result is the filtered list itself even under a degenerate sampler. -/
theorem genre_small_result_in_corpus_order_witness :
    get_books_by_genre (fun _ _ => []) [⟨"The Ghost Writer","a","p"⟩, ⟨"Plain","b","q"⟩]
        "Horror" 10 =
      ([⟨"The Ghost Writer","a","p"⟩, ⟨"Plain","b","q"⟩] : List Book).filter
        (titleMatches ["horror", "ghost", "vampire", "zombie", "scary",
          "haunted", "stephen king"]) :=
  genre_small_result_in_corpus_order _ _ "Horror" _ 10 rfl (by decide)

/-! Construction totality (C8) -/

/-- C8, counterexample to the claim as stated: a corpus whose three
required columns hold only single-character values.  Every composite
feature text is `"a b c"`, the vectorizer's token pattern `\w\w+` finds
no token of length ≥ 2 in any document, so `fit_transform` raises
`ValueError: empty vocabulary` — a purely value-level failure of
construction.  No token survives tokenization at all, so the failure is
independent of the stop-word list; it is exhibited here with the empty
one. -/
theorem construction_fails_on_short_tokens :
    buildEngine [] [⟨.str "a", .str "b", .str "c"⟩] = .error "empty vocabulary" := rfl

/-- C8, amended: field coercion and `preprocess` are total and
produce the lowercased space-joined concatenation of the stringified
title, author and publisher (missing values becoming the `"nan"`
placeholder); and construction succeeds whenever the corpus yields a
nonempty vocabulary, i.e. some composite text contains a token of at
least two word characters that is not a stop word. -/
theorem construction_total_on_nonempty_vocab (stop : List String) (raw : List RawBook)
    (hv : buildVocab stop (preprocessFeatures (coerceCorpus raw)) ≠ []) :
    buildEngine stop raw =
      .ok (coerceCorpus raw,
        ⟨buildVocab stop (preprocessFeatures (coerceCorpus raw))⟩) ∧
    preprocessFeatures (coerceCorpus raw) =
      raw.map (fun r =>
        lowerStr (r.title.toStr ++ " " ++ r.author.toStr ++ " " ++ r.publisher.toStr)) ∧
    RawField.missing.toStr = "nan" := by
  refine ⟨?_, ?_, rfl⟩
  · rw [buildEngine, fitVectorizer]
    simp only [List.isEmpty_iff]
    rw [if_neg hv]
    rfl
  · simp only [preprocessFeatures, coerceCorpus, List.map_map]
    rfl

/-- Witness for C8: a row with a missing title; coercion yields the
`"nan"` placeholder and construction succeeds. -/
theorem construction_total_on_nonempty_vocab_witness :
    (buildEngine [] [⟨.missing, .str "Tolkien", .str "Allen"⟩] =
      .ok (coerceCorpus [⟨.missing, .str "Tolkien", .str "Allen"⟩],
        ⟨buildVocab []
          (preprocessFeatures (coerceCorpus [⟨.missing, .str "Tolkien", .str "Allen"⟩]))⟩)) ∧
    preprocessFeatures (coerceCorpus [⟨.missing, .str "Tolkien", .str "Allen"⟩]) =
      [(⟨.missing, .str "Tolkien", .str "Allen"⟩ : RawBook)].map (fun r =>
        lowerStr (r.title.toStr ++ " " ++ r.author.toStr ++ " " ++ r.publisher.toStr)) ∧
    RawField.missing.toStr = "nan" :=
  construction_total_on_nonempty_vocab [] _ (by decide)

/-! The ranking produced by `recommend` (C2) -/

lemma enum_nodup {α : Type} (l : List α) : l.enum.Nodup :=
  (enum_pairwise_fst_lt l).imp
    (fun {_ _} hl => fun he => absurd (he ▸ hl) (lt_irrefl _))

/-- In a duplicate-free list, a two-element sublist can never occur in
the opposite order as well. -/
lemma nodup_not_rev_pair_sublist {γ : Type} :
    ∀ {l : List γ}, l.Nodup → l.Pairwise (fun x y => ¬ [y, x].Sublist l) := by
  intro l
  induction l with
  | nil => intro _; exact List.Pairwise.nil
  | cons x xs ih =>
    intro hnd
    have hx : x ∉ xs := (List.nodup_cons.mp hnd).1
    have hxs : xs.Nodup := (List.nodup_cons.mp hnd).2
    refine List.pairwise_cons.mpr ⟨?_, ?_⟩
    · intro y hy hsub
      cases hsub with
      | cons _ h =>
        exact hx (h.subset (List.mem_cons_of_mem _ (List.mem_cons_self _ _)))
      | cons₂ _ h => exact absurd hy hx
    · refine (ih hxs).imp_of_mem ?_
      intro a b _ hb hnsub hsub
      cases hsub with
      | cons _ h => exact hnsub h
      | cons₂ _ h => exact absurd hb hx

lemma pair_antisym_of_nodup {γ : Type} {l : List γ} {a b : γ} (hnd : l.Nodup)
    (h1 : [a, b].Sublist l) (h2 : [b, a].Sublist l) : a = b :=
  absurd h2 (List.pairwise_iff_forall_sublist.mp (nodup_not_rev_pair_sublist hnd) h1)

/-- Two positions of an enumeration, in index order, form a sublist. -/
lemma pair_sublist_enum {α : Type} (row : List α) {i j : Nat}
    (hij : i < j) (hj : j < row.length) :
    [(i, row.get ⟨i, Nat.lt_trans hij hj⟩), (j, row.get ⟨j, hj⟩)].Sublist row.enum := by
  have hi : i < row.length := Nat.lt_trans hij hj
  have hilen : i < row.enum.length := by simpa [List.enum_length] using hi
  have hmem : (j, row.get ⟨j, hj⟩) ∈ List.drop (i + 1) row.enum := by
    rw [List.mem_iff_getElem]
    have hjlen : j - (i + 1) < (List.drop (i + 1) row.enum).length := by
      simp only [List.length_drop, List.enum_length]
      omega
    refine ⟨j - (i + 1), hjlen, ?_⟩
    rw [List.getElem_drop]
    have hidx : i + 1 + (j - (i + 1)) = j := by omega
    simp only [hidx, List.getElem_enum]
    rfl
  have hget : row.enum.get ⟨i, hilen⟩ = (i, row.get ⟨i, hi⟩) := by
    rw [List.get_eq_getElem, List.getElem_enum]
    rfl
  have step : [(i, row.get ⟨i, hi⟩), (j, row.get ⟨j, hj⟩)].Sublist
      (row.enum.get ⟨i, hilen⟩ :: List.drop (i + 1) row.enum) := by
    rw [hget]
    exact List.Sublist.cons₂ _ (List.singleton_sublist.mpr hmem)
  have hdrop : row.enum.get ⟨i, hilen⟩ :: List.drop (i + 1) row.enum =
      List.drop i row.enum := by
    rw [List.get_eq_getElem]
    exact (List.drop_eq_getElem_cons hilen).symm
  rw [hdrop] at step
  exact step.trans (List.drop_sublist _ _)

/-- Stability of the embedded sort: the output of `rankedPairs` is
strictly descending in score with ties in ascending index order, exactly
the spec's "descending similarity, ties by ascending corpus index". -/
lemma rankedPairs_pairwise_specOrd {α : Type} [LinearOrder α] (row : List α) :
    (rankedPairs row).Pairwise specOrd := by
  have hperm : (rankedPairs row).Perm row.enum := List.perm_insertionSort _ _
  have hnd : (rankedPairs row).Nodup := hperm.nodup_iff.mpr (enum_nodup row)
  have hsorted : (rankedPairs row).Pairwise (scoreGE (α := α)) :=
    List.sorted_insertionSort _ _
  rw [List.pairwise_iff_forall_sublist]
  intro p q hsub
  have hge : scoreGE p q := List.pairwise_iff_forall_sublist.mp hsorted hsub
  rcases lt_or_eq_of_le hge with hlt | heq
  · exact Or.inl hlt
  · refine Or.inr ⟨heq.symm, ?_⟩
    have hpq : p ≠ q := by
      intro hpq'
      have hsubnd : ([p, q] : List (Nat × α)).Nodup := hsub.nodup hnd
      rw [hpq'] at hsubnd
      simp at hsubnd
    have hp : p ∈ row.enum := hperm.subset (hsub.subset (by simp))
    have hq : q ∈ row.enum := hperm.subset (hsub.subset (by simp))
    rw [List.mem_enum_iff_getElem?] at hp hq
    obtain ⟨hp1, hp2⟩ := List.getElem?_eq_some.mp hp
    obtain ⟨hq1, hq2⟩ := List.getElem?_eq_some.mp hq
    have hpe : p = (p.1, row.get ⟨p.1, hp1⟩) := by
      have h2 : p.2 = row.get ⟨p.1, hp1⟩ := by
        rw [List.get_eq_getElem]
        exact hp2.symm
      exact Prod.ext rfl h2
    have hqe : q = (q.1, row.get ⟨q.1, hq1⟩) := by
      have h2 : q.2 = row.get ⟨q.1, hq1⟩ := by
        rw [List.get_eq_getElem]
        exact hq2.symm
      exact Prod.ext rfl h2
    have hne1 : p.1 ≠ q.1 := by
      intro h1
      apply hpq
      rw [hpe, hqe]
      simp only [h1]
    rcases Nat.lt_or_ge p.1 q.1 with h | h
    · exact h
    · exfalso
      have hqlt : q.1 < p.1 := lt_of_le_of_ne h (fun e => hne1 e.symm)
      have hqp : [q, p].Sublist row.enum := by
        rw [hpe, hqe]
        exact pair_sublist_enum row hqlt hp1
      have hqpr : [q, p].Sublist (rankedPairs row) :=
        List.pair_sublist_insertionSort heq.ge hqp
      exact hpq (pair_antisym_of_nodup hnd hsub hqpr)

/-- C2: for a resolved title, the engine's ranking `rankedPairs` is
a permutation of all corpus indices, sorted by similarity descending
with ties broken by ascending corpus index; `recommend` returns exactly
the rows of the ranking after the single top-ranked entry, truncated to
`top_n`; and the result length is `min top_n (N - 1)` — fewer than
`top_n` only when the corpus minus one item is smaller. -/
theorem recommend_matches_ranking {α : Type} [LinearOrder α]
    (books : List Book) (sim : Nat → Nat → α) (title : String) (idx top_n : Nat)
    (h : resolveTitle books title = some idx) :
    ((rankedPairs ((List.range books.length).map (sim idx))).map Prod.fst).Perm
        (List.range books.length) ∧
    (rankedPairs ((List.range books.length).map (sim idx))).Pairwise specOrd ∧
    recommend books sim title top_n =
      (((rankedPairs ((List.range books.length).map (sim idx))).drop 1).take top_n).map
        (fun p => books.getD p.1 default) ∧
    (recommend books sim title top_n).length = min top_n (books.length - 1) := by
  have hlen : ((List.range books.length).map (sim idx)).length = books.length := by
    simp
  have hperm : (rankedPairs ((List.range books.length).map (sim idx))).Perm
      ((List.range books.length).map (sim idx)).enum := List.perm_insertionSort _ _
  have hrlen : (rankedPairs ((List.range books.length).map (sim idx))).length =
      books.length := by
    rw [hperm.length_eq, List.enum_length, hlen]
  refine ⟨?_, rankedPairs_pairwise_specOrd _, ?_, ?_⟩
  · have hm := hperm.map Prod.fst
    rw [List.enum_map_fst, hlen] at hm
    exact hm
  · simp only [recommend, h]
    rw [List.map_map]
    rfl
  · simp only [recommend, h, List.length_map, List.length_take, List.length_drop]
    rw [hrlen]

/-- Witness for C2: querying `"t"` (resolved to index 0) on `booksW2`. -/
theorem recommend_matches_ranking_witness :
    ((rankedPairs ((List.range booksW2.length).map (simW2 0))).map Prod.fst).Perm
        (List.range booksW2.length) ∧
    (rankedPairs ((List.range booksW2.length).map (simW2 0))).Pairwise specOrd ∧
    recommend booksW2 simW2 "t" 5 =
      (((rankedPairs ((List.range booksW2.length).map (simW2 0))).drop 1).take 5).map
        (fun p => booksW2.getD p.1 default) ∧
    (recommend booksW2 simW2 "t" 5).length = min 5 (booksW2.length - 1) :=
  recommend_matches_ranking booksW2 simW2 "t" 0 5 (by decide)

/-! Properties of the similarity matrix (C7) -/

lemma rowNormSq_nonneg {V : Nat} (v : Fin V → ℝ) : 0 ≤ rowNormSq v :=
  Finset.sum_nonneg fun _ _ => sq_nonneg _

lemma rowNormSq_eq_zero_iff {V : Nat} (v : Fin V → ℝ) : rowNormSq v = 0 ↔ v = 0 := by
  unfold rowNormSq
  rw [Finset.sum_eq_zero_iff_of_nonneg (fun t _ => sq_nonneg (v t))]
  constructor
  · intro hz
    funext t
    exact (pow_eq_zero_iff (by norm_num)).mp (hz t (Finset.mem_univ t))
  · intro hz t _
    rw [hz]
    simp

lemma l2_mul_self_sum {V : Nat} (v : Fin V → ℝ) (hv : rowNormSq v ≠ 0) :
    ∑ t, l2normalize v t * l2normalize v t = 1 := by
  have h0 : 0 ≤ rowNormSq v := rowNormSq_nonneg v
  unfold l2normalize
  have hterm : ∀ t : Fin V,
      v t / Real.sqrt (rowNormSq v) * (v t / Real.sqrt (rowNormSq v)) =
        v t ^ 2 / rowNormSq v := by
    intro t
    rw [div_mul_div_comm, Real.mul_self_sqrt h0, sq]
  rw [Finset.sum_congr rfl (fun t _ => hterm t), ← Finset.sum_div]
  exact div_self hv

lemma l2normalize_sum_sq_le_one {V : Nat} (v : Fin V → ℝ) :
    ∑ t, l2normalize v t ^ 2 ≤ 1 := by
  by_cases hv : rowNormSq v = 0
  · have hv0 : v = 0 := (rowNormSq_eq_zero_iff v).mp hv
    simp [l2normalize, hv0]
  · have h1 := l2_mul_self_sum v hv
    have h2 : ∑ t, l2normalize v t ^ 2 = 1 := by
      rw [← h1]
      exact Finset.sum_congr rfl fun t _ => pow_two _
    exact le_of_eq h2

/-- C7: for every nonnegative weight matrix (TF-IDF weights are
nonnegative), the similarity matrix computed by `train` — the linear
kernel of the L2-normalized rows — is symmetric, has all entries in
`[0, 1]`, and has diagonal entries `1` for every item with a nonzero
weight row and `0` for the degenerate zero-vector items. -/
theorem similarity_matrix_properties {N V : Nat} (w : Fin N → Fin V → ℝ)
    (hw : ∀ i t, 0 ≤ w i t) :
    (∀ i j, cosineSim w i j = cosineSim w j i) ∧
    (∀ i j, 0 ≤ cosineSim w i j ∧ cosineSim w i j ≤ 1) ∧
    (∀ i, (w i ≠ 0 → cosineSim w i i = 1) ∧ (w i = 0 → cosineSim w i i = 0)) := by
  have hnn : ∀ (i : Fin N) (t : Fin V), 0 ≤ l2normalize (w i) t := fun i t =>
    div_nonneg (hw i t) (Real.sqrt_nonneg _)
  refine ⟨?_, ?_, ?_⟩
  · intro i j
    unfold cosineSim
    exact Finset.sum_congr rfl fun t _ => mul_comm _ _
  · intro i j
    have h0 : 0 ≤ cosineSim w i j :=
      Finset.sum_nonneg fun t _ => mul_nonneg (hnn i t) (hnn j t)
    refine ⟨h0, ?_⟩
    have hcs := Finset.sum_mul_sq_le_sq_mul_sq Finset.univ
      (l2normalize (w i)) (l2normalize (w j))
    have hi := l2normalize_sum_sq_le_one (w i)
    have hj := l2normalize_sum_sq_le_one (w j)
    have hsq : cosineSim w i j ^ 2 ≤ 1 := by
      calc cosineSim w i j ^ 2
          ≤ (∑ t, l2normalize (w i) t ^ 2) * ∑ t, l2normalize (w j) t ^ 2 := hcs
        _ ≤ 1 * 1 :=
            mul_le_mul hi hj (Finset.sum_nonneg fun _ _ => sq_nonneg _) zero_le_one
        _ = 1 := one_mul 1
    nlinarith [h0, hsq]
  · intro i
    constructor
    · intro hwi
      have hz : rowNormSq (w i) ≠ 0 := fun h => hwi ((rowNormSq_eq_zero_iff _).mp h)
      exact l2_mul_self_sum (w i) hz
    · intro hwi
      unfold cosineSim
      rw [hwi]
      simp [l2normalize]

/-- Witness for C7: the one-by-one weight matrix `wWit`. -/
theorem similarity_matrix_properties_witness :
    (∀ i j, cosineSim wWit i j = cosineSim wWit j i) ∧
    (∀ i j, 0 ≤ cosineSim wWit i j ∧ cosineSim wWit i j ≤ 1) ∧
    (∀ i, (wWit i ≠ 0 → cosineSim wWit i i = 1) ∧ (wWit i = 0 → cosineSim wWit i i = 0)) :=
  similarity_matrix_properties wWit (by intro i t; simp [wWit])
